import Mathlib

/-!
Verification development for the IAP (Iterative Allocation Process) reference
model of the Spectrum-Access-System repository, file
`src/harness/reference_models/iap/iap.py`.

The Python module is shallowly embedded here:

* the two module-level aggregation dictionaries (`asas_interference`,
  `aggregate_interference`) become explicit association-list stores threaded
  through the functions (Python dicts preserve insertion order, which the
  association lists reproduce);
* the per-point/per-channel convergence loop of `iapPointConstraint` becomes a
  fuel-indexed state-transition function over an explicit `IapState`;
* external collaborators from the `interference` module (geometry filtering,
  the propagation model, dB conversions) are passed in as parameters, or, where
  a claim depends on their concrete behaviour, modelled from the spec (each
  such definition carries a doc comment starting with `Modelled from the
  spec:`);
* floating point arithmetic is embedded as exact arithmetic (`ℚ` for the
  algorithmic core, `ℝ` where the logarithmic threshold conversions of the
  entity drivers are needed).
-/

/-! ## Association-list stores

The Python code keeps aggregation results in nested dictionaries
`{latitude : {longitude : [per-channel values]}}`.  We model a dictionary as an
association list that preserves insertion order, exactly as CPython dicts do.
-/

/-- A nested store `{latitude : {longitude : [values]}}`. -/
abbrev Store (α : Type) := List (α × List (α × List α))

/-- Dictionary read: first entry with the given key, if any. -/
def alistGet {κ β : Type} [DecidableEq κ] : List (κ × β) → κ → Option β
  | [], _ => none
  | e :: rest, k => if e.1 = k then some e.2 else alistGet rest k

/-- Dictionary write `d[k] = v`: an existing key keeps its position (CPython
semantics), a new key is appended at the end. -/
def dictSet {κ β : Type} [DecidableEq κ] : List (κ × β) → κ → β → List (κ × β)
  | [], k, v => [(k, v)]
  | e :: rest, k, v => if e.1 = k then (k, v) :: rest else e :: dictSet rest k v

/-- Read the per-channel value list stored at a (latitude, longitude) key. -/
def storeLookup {α : Type} [DecidableEq α] (s : Store α) (lat lon : α) :
    Option (List α) :=
  match alistGet s lat with
  | none => none
  | some lons => alistGet lons lon

/-- The per-channel value list at a key, defaulting to the empty list. -/
def storeVals {α : Type} [DecidableEq α] (s : Store α) (lat lon : α) : List α :=
  (storeLookup s lat lon).getD []

/-- All (latitude, longitude) keys of a store, in insertion order. -/
def storeKeys {α : Type} (s : Store α) : List (α × α) :=
  (s.map (fun e => e.2.map (fun l => (e.1, l.1)))).flatten

/-! ## Final Combination (`calculateApIapRef`, iap.py lines 503-529)

The Python source:

```
ap_iap_ref = \x7b\x7d
for latitude, a_p_ch in a_p_info.items():
  for longitude, a_p_list in a_p_ch.items():
    ap_iap_ref[latitude] = \x7b\x7d
    ap_iap_ref[latitude][longitude] = []
    for index, a_p in enumerate(a_p_list):
        ap_iap_ref[latitude][longitude].append(((q_p - a_p) / num_sas) +
                            asas_info[latitude][longitude][index])
```

Note that `ap_iap_ref[latitude] = \x7b\x7d` sits inside the *longitude* loop: the
embedding reproduces this faithfully (`dictSet acc lat [single longitude]`).
-/

/-- The inner index loop of `calculateApIapRef`: one combined value per index of
the global-total list.  `asas_info[latitude][longitude][index]` is a plain
subscript in Python; here the lookup defaults to `0`, which is never exercised
when the two stores are index-aligned (the alignment invariant is proved as
claim C9). -/
def combineVals {α : Type} [Field α] (q n : α) (asasVals vals : List α) :
    List α :=
  (List.range vals.length).map
    (fun i => (q - vals.getD i 0) / n + asasVals.getD i 0)

/-- Shallow embedding of `calculateApIapRef(q_p, num_sas)` (iap.py 503-529),
with the two module-level stores passed explicitly (`asas` is
`asas_interference`, `ap` is `aggregate_interference`). -/
def calculateApIapRef {α : Type} [Field α] [DecidableEq α] (q n : α)
    (asas ap : Store α) : Store α :=
  ap.foldl
    (fun acc latE =>
      latE.2.foldl
        (fun acc2 lonE =>
          dictSet acc2 latE.1
            [(lonE.1, combineVals q n (storeVals asas latE.1 lonE.1) lonE.2)])
        acc)
    []

/-! ## The convergence loop of `iapPointConstraint` (iap.py lines 150-197)

State of one point/channel allocation run.  `interference_quota`,
`num_unsatisfied_grants`, `fair_share`, `grants_eirp`, `grant_initialize_flag`,
`aggr_interference` and `a_sas_p_interference` become the fields below.
`numUnsat` is an integer because the Python counter can be driven below zero
(the initialize flag is never set to `True`, see claim C7). -/
structure IapState where
  quota : ℚ
  numUnsat : ℤ
  fairShare : ℚ
  eirp : List ℚ
  flags : List Bool
  aggr : ℚ
  asas : ℚ
deriving Repr, DecidableEq

/-- One iteration of the `for index, grant in enumerate(neighborhood_grants)`
body (iap.py 167-197).  `interf i e` is the linear interference
`dbToLinear(computeInterference(grant_i, e, ...))` of grant `i` at candidate
EIRP `e`; `managed` lists each grant's `is_managed_grant` flag. -/
def probe (interf : ℕ → ℚ → ℚ) (managed : List Bool) (i : ℕ) (s : IapState) :
    IapState :=
  if s.flags.getD i false = false then
    let inter := interf i (s.eirp.getD i 0)
    if inter < s.fairShare then
      { s with
        quota := s.quota - inter
        numUnsat := s.numUnsat - 1
        fairShare :=
          if s.numUnsat - 1 = 0 then s.fairShare
          else (s.quota - inter) / ((s.numUnsat - 1 : ℤ) : ℚ)
        aggr := s.aggr + inter
        asas := if managed.getD i false then s.asas + inter else s.asas }
    else
      { s with eirp := s.eirp.set i (s.eirp.getD i 0 - 1) }
  else s

/-- One full sweep over a list of grant indices. -/
def sweepList (interf : ℕ → ℚ → ℚ) (managed : List Bool) :
    List ℕ → IapState → IapState
  | [], s => s
  | i :: rest, s => sweepList interf managed rest (probe interf managed i s)

/-- The `while (num_unsatisfied_grants > 0)` loop (iap.py 166), with explicit
fuel bounding the number of sweeps; `n` is the number of neighborhood grants. -/
def runLoop (interf : ℕ → ℚ → ℚ) (managed : List Bool) (n : ℕ) :
    ℕ → IapState → IapState
  | 0, s => s
  | fuel + 1, s =>
    if 0 < s.numUnsat then
      runLoop interf managed n fuel (sweepList interf managed (List.range n) s)
    else s

/-- Loop initialisation (iap.py 145-164): the quota for the channel, all grants
unsatisfied at their maximum EIRP, `fair_share = quota / n`, flags all False,
running totals zero. -/
def initState (quota : ℚ) (e0 : List ℚ) : IapState :=
  { quota := quota
    numUnsat := (e0.length : ℤ)
    fairShare := quota / (e0.length : ℚ)
    eirp := e0
    flags := List.replicate e0.length false
    aggr := 0
    asas := 0 }

/-! ## Protected entities and the point constraint routine -/

/-- The `ProtectedEntityType` enum of the `interference` module, as used by
iap.py. -/
inductive ProtectedEntityType where
  | ESC
  | GWPZ_AREA
  | PPA_AREA
  | FSS_CO_CHANNEL
  | FSS_BLOCKING
deriving DecidableEq, Repr

/-- The fields of a grant tuple that iap.py reads: `max_eirp`,
`low_frequency`, `high_frequency` (Hz) and `is_managed_grant`. -/
structure Grant where
  maxEirp : ℚ
  lowFrequency : ℚ
  highFrequency : ℚ
  isManagedGrant : Bool
deriving DecidableEq, Repr, Inhabited

/-- The `ProtectionConstraint` namedtuple built at iap.py 137-139. -/
structure ProtectionConstraint where
  latitude : ℚ
  longitude : ℚ
  lowFrequency : ℚ
  highFrequency : ℚ
  entityType : ProtectedEntityType
deriving DecidableEq, Repr

/-- External collaborators of `iapPointConstraint`, passed as data:
`findInside` is `interference.findGrantsInsideNeighborhood` (geometry, out of
scope per the spec); `interfLinear` is the composite
`dbToLinear(computeInterference(grant, eirp, constraint, ...))` of iap.py
170-172 (the propagation model is an external black box); `dbToLin`/`linToDb`
are the `interference` module's scale conversions as used in the ESC quota
roll-off. -/
structure ExternalModel where
  findInside : List Grant → ℚ × ℚ → ProtectedEntityType → List Grant
  interfLinear : Grant → ℚ → ProtectionConstraint → ℚ
  dbToLin : ℚ → ℚ
  linToDb : ℚ → ℚ

/-- Center frequency of ESC channel 21 (`interference.ESC_CH21_CF_HZ`),
3652.5 MHz. -/
def ESC_CH21_CF_HZ : ℚ := 3652500000

/-- One MHz in Hz (`interference.MHZ`). -/
def MHZ : ℚ := 1000000

/-- ESC passband low frequency, 3550 MHz (iap.py 245-247). -/
def ESC_LOW_FREQ_HZ : ℚ := 3550000000

/-- ESC passband high frequency, 3680 MHz (iap.py 245-247). -/
def ESC_HIGH_FREQ_HZ : ℚ := 3680000000

/-- Roll-off attenuation in dB for an ESC channel (iap.py 124):
`2.5 + (center_freq - ESC_CH21_CF_HZ) / MHZ` with
`center_freq = (channel[0] + channel[1]) / 2`. -/
def escRollOffDb (ch : ℚ × ℚ) : ℚ :=
  2.5 + ((ch.1 + ch.2) / 2 - ESC_CH21_CF_HZ) / MHZ

/-- The ESC interference quota for one channel (iap.py 120-126): channels whose
low frequency is at least 3650 MHz get the roll-off attenuation applied in dB
to the base threshold before converting back to linear scale. -/
def escChannelQuota (dbToLin linToDb : ℚ → ℚ) (threshold : ℚ) (ch : ℚ × ℚ) :
    ℚ :=
  if (3650000000 : ℚ) ≤ ch.1 then
    dbToLin (linToDb threshold - escRollOffDb ch)
  else threshold

/-- Modelled from the spec: `interference.getProtectedChannels` is not under
src/; per the spec a channel list is the sequence of 5 MHz segments of the
entity's protected frequency range. -/
def getProtectedChannels (low high : ℚ) : List (ℚ × ℚ) :=
  (List.range (Int.toNat (Int.ceil ((high - low) / 5000000)))).map
    (fun (k : ℕ) => (low + 5000000 * (k : ℚ), low + 5000000 * ((k : ℚ) + 1)))

/-- Modelled from the spec: `interference.findOverlappingGrants` is not under
src/; per the spec it keeps the grants whose frequency range overlaps the
channel constraint's range. -/
def findOverlappingGrants (grants : List Grant) (chLow chHigh : ℚ) :
    List Grant :=
  grants.filter (fun g => chLow < g.highFrequency ∧ g.lowFrequency < chHigh)

/-- Modelled from the spec: `AggregateInterferenceOutputFormat.
SetAggregateInterferenceInfo` of the `interference` module is not under src/;
per the spec it appends the value as the next element of the channel-ordered
list held at the (latitude, longitude) key, creating the key if absent. -/
def lonAppend (lon v : ℚ) : List (ℚ × List ℚ) → List (ℚ × List ℚ)
  | [] => [(lon, [v])]
  | e :: rest =>
    if e.1 = lon then (e.1, e.2 ++ [v]) :: rest else e :: lonAppend lon v rest

/-- Modelled from the spec: the (latitude, longitude)-keyed append of
`SetAggregateInterferenceInfo`, on the nested store. -/
def setAggInfo (lat lon v : ℚ) : Store ℚ → Store ℚ
  | [] => [(lat, [(lon, [v])])]
  | e :: rest =>
    if e.1 = lat then (e.1, lonAppend lon v e.2) :: rest
    else e :: setAggInfo lat lon v rest

/-- The body of the `for channel in channels` loop of `iapPointConstraint`
(iap.py 116-203), acting on the pair of stores
`(asas_interference, aggregate_interference)`. -/
def channelStep (ext : ExternalModel) (fuel : ℕ) (point : ℚ × ℚ)
    (lowFreq highFreq : ℚ) (grantsInside : List Grant) (threshold : ℚ)
    (entType : ProtectedEntityType) (st : Store ℚ × Store ℚ) (channel : ℚ × ℚ) :
    Store ℚ × Store ℚ :=
  let quota : ℚ :=
    if entType = ProtectedEntityType.ESC then
      escChannelQuota ext.dbToLin ext.linToDb threshold channel
    else threshold
  let effCh : ℚ × ℚ :=
    if entType = ProtectedEntityType.FSS_BLOCKING then (lowFreq, highFreq)
    else channel
  let constraint : ProtectionConstraint :=
    { latitude := point.1, longitude := point.2, lowFrequency := effCh.1,
      highFrequency := effCh.2, entityType := entType }
  let neighborhood := findOverlappingGrants grantsInside effCh.1 effCh.2
  if neighborhood = [] then st
  else
    let interfFn : ℕ → ℚ → ℚ :=
      fun i e => ext.interfLinear (neighborhood.getD i default) e constraint
    let managed := neighborhood.map (fun g => g.isManagedGrant)
    let final :=
      runLoop interfFn managed neighborhood.length fuel
        (initState quota (neighborhood.map (fun g => g.maxEirp)))
    (setAggInfo point.1 point.2 final.asas st.1,
     setAggInfo point.1 point.2 final.aggr st.2)

/-- Shallow embedding of `iapPointConstraint` (iap.py 80-204): filter the
neighborhood once, then run the per-channel allocation, threading the two
aggregation stores. -/
def iapPointConstraint (ext : ExternalModel) (fuel : ℕ) (point : ℚ × ℚ)
    (channels : List (ℚ × ℚ)) (lowFreq highFreq : ℚ) (grants : List Grant)
    (threshold : ℚ) (entType : ProtectedEntityType) (st : Store ℚ × Store ℚ) :
    Store ℚ × Store ℚ :=
  let grantsInside := ext.findInside grants point entType
  if 0 < grantsInside.length then
    channels.foldl
      (channelStep ext fuel point lowFreq highFreq grantsInside threshold
        entType)
      st
  else st

/-! ## Entity driver constants and thresholds (iap.py 48-62, 273-275, 332-334,
451-453)

The dB/linear conversions live in the `interference` module, which is not under
src/; they are modelled from the spec's words (logarithmic-to-linear and its
inverse), over the reals. -/

/-- Modelled from the spec: `interference.dbToLinear(x) = 10^(x/10)`
(logarithmic-to-linear conversion). -/
noncomputable def dbToLinear (x : ℝ) : ℝ := (10 : ℝ) ^ (x / 10)

/-- Modelled from the spec: `interference.linearToDb(x) = 10 * log10(x)`
(linear-to-logarithmic conversion). -/
noncomputable def linearToDb (x : ℝ) : ℝ := 10 * Real.logb 10 x

/-- `Q_GWPZ_DBM_PER_RBW` (iap.py 52). -/
def Q_GWPZ_DBM_PER_RBW : ℝ := -80

/-- `Q_PPA_DBM_PER_RBW` (iap.py 51). -/
def Q_PPA_DBM_PER_RBW : ℝ := -80

/-- `Q_FSS_BLOCKING_DBM_PER_RBW` (iap.py 54). -/
def Q_FSS_BLOCKING_DBM_PER_RBW : ℝ := -60

/-- `MG_GWPZ_DB` (iap.py 59). -/
def MG_GWPZ_DB : ℝ := 1

/-- `MG_PPA_DB` (iap.py 58). -/
def MG_PPA_DB : ℝ := 1

/-- `MG_FSS_BLOCKING_DB` (iap.py 61). -/
def MG_FSS_BLOCKING_DB : ℝ := 1

/-- Modelled from the spec: `interference.IAPBW_HZ`, the 5 MHz IAP bandwidth
(the spec's channels are 5 MHz segments). -/
def IAPBW_HZ : ℝ := 5000000

/-- Modelled from the spec: `interference.GWPZ_RBW_HZ`, the 10 MHz GWPZ
reference bandwidth of the regulatory table cited at iap.py 48-50. -/
def GWPZ_RBW_HZ : ℝ := 10000000

/-- Modelled from the spec: `interference.PPA_RBW_HZ`, the 10 MHz PPA reference
bandwidth of the regulatory table cited at iap.py 48-50. -/
def PPA_RBW_HZ : ℝ := 10000000

/-- Modelled from the spec: `interference.FSS_TTC_LOW_FREQ_HZ`, 3700 MHz (the
protected telemetry/command band bound named at iap.py 481). -/
def FSS_TTC_LOW_FREQ_HZ : ℝ := 3700000000

/-- Modelled from the spec: `interference.FSS_TTC_HIGH_FREQ_HZ`, 4200 MHz (the
protected telemetry/command band bound named at iap.py 481). -/
def FSS_TTC_HIGH_FREQ_HZ : ℝ := 4200000000

/-- `iap_threshold_gwpz` (iap.py 273-274): the GWPZ pre-IAP threshold in
dBm/IAPBW. -/
noncomputable def iap_threshold_gwpz : ℝ :=
  Q_GWPZ_DBM_PER_RBW + linearToDb (IAPBW_HZ / GWPZ_RBW_HZ)

/-- `iap_margin_gwpz` (iap.py 275): the GWPZ threshold converted to linear
scale (mW/IAPBW) after subtracting the 1 dB margin. -/
noncomputable def iap_margin_gwpz : ℝ :=
  dbToLinear (iap_threshold_gwpz - MG_GWPZ_DB)

/-- `iap_threshold_ppa` (iap.py 332-333): the PPA pre-IAP threshold in
dBm/IAPBW. -/
noncomputable def iap_threshold_ppa : ℝ :=
  Q_PPA_DBM_PER_RBW + linearToDb (IAPBW_HZ / PPA_RBW_HZ)

/-- `iap_margin_ppa` (iap.py 334): the PPA threshold converted to linear scale
(mW/IAPBW) after subtracting the 1 dB margin. -/
noncomputable def iap_margin_ppa : ℝ :=
  dbToLinear (iap_threshold_ppa - MG_PPA_DB)

/-- `iap_margin_fss_blocking` (iap.py 451-453). -/
noncomputable def iap_margin_fss_blocking : ℝ :=
  dbToLinear (Q_FSS_BLOCKING_DBM_PER_RBW - MG_FSS_BLOCKING_DB)

/-! ## The GWPZ / PPA / FSS-blocking drivers (iap.py 262-317, 320-385, 440-500)

Only the control flow that the claims are about is embedded: grid generation,
FAD parsing and the parallel pool are external collaborators, abstracted as a
`pointRuns` function that maps the freshly reset store pair to the store pair
left behind by the per-point `iapPointConstraint` calls. -/

/-- A PAL record as read by `performIapForPpa` (iap.py 352-357): its `palId`
and the primary channel assignment frequency range. -/
structure PalRecord where
  palId : ℕ
  lowFrequency : ℝ
  highFrequency : ℝ

/-- The first argument of the `calculateApIapRef` call at iap.py 316: the
GWPZ driver passes `iap_threshold_gwpz` there. -/
noncomputable def gwpzCombinationThresholdArg : ℝ := iap_threshold_gwpz

/-- The first argument of the `calculateApIapRef` call at iap.py 384: the
PPA driver passes `iap_threshold_ppa` there. -/
noncomputable def ppaCombinationThresholdArg : ℝ := iap_threshold_ppa

/-- Shallow embedding of `performIapForPpa` (iap.py 320-385).  `ppaPalId0` is
`protected_entity['ppaInfo']['palId'][0]`; `pointRuns r` stands for the
store-reset (iap.py 362-363) followed by the pooled per-point
`iapPointConstraint` calls (iap.py 369-381) for the matched PAL record `r`,
applied to the reset (empty) store pair.  The `for pal_record in pal_records`
loop with its `break` is the first match; with no match the loop body never
runs and the stores pass through untouched.  `calculateApIapRef` is invoked
unconditionally at iap.py 384. -/
noncomputable def performIapForPpa
    (pointRuns : PalRecord → Store ℝ × Store ℝ → Store ℝ × Store ℝ)
    (ppaPalId0 : ℕ) (palRecords : List PalRecord) (numSas : ℝ)
    (st : Store ℝ × Store ℝ) : (Store ℝ × Store ℝ) × Store ℝ :=
  let st' :=
    match palRecords.find? (fun r => r.palId = ppaPalId0) with
    | some r => pointRuns r (([], []) : Store ℝ × Store ℝ)
    | none => st
  (st', calculateApIapRef ppaCombinationThresholdArg numSas st'.1 st'.2)

/-- Shallow embedding of `performIapForFssBlocking` (iap.py 440-500).
`pointRun` stands for the store reset (iap.py 488-489) followed by the single
`iapPointConstraint` call (iap.py 494-497), applied to the reset (empty) store
pair.  When the FSS passband lies inside 3700-4200 MHz and the TT&C flag is
False the driver only logs (iap.py 482-486) and the stores pass through
untouched; `calculateApIapRef` is invoked unconditionally at iap.py 499. -/
noncomputable def performIapForFssBlocking
    (pointRun : Store ℝ × Store ℝ → Store ℝ × Store ℝ)
    (fssLowFreq fssHighFreq : ℝ) (fssTtcFlag : Bool) (numSas : ℝ)
    (st : Store ℝ × Store ℝ) : (Store ℝ × Store ℝ) × Store ℝ :=
  let st' :=
    if FSS_TTC_LOW_FREQ_HZ ≤ fssLowFreq ∧ fssHighFreq ≤ FSS_TTC_HIGH_FREQ_HZ ∧
        fssTtcFlag = false then st
    else pointRun (([], []) : Store ℝ × Store ℝ)
  (st', calculateApIapRef iap_margin_fss_blocking numSas st'.1 st'.2)

/-! ## Association-list lemmas -/

theorem alistGet_dictSet_self {κ β : Type} [DecidableEq κ] (m : List (κ × β))
    (k : κ) (v : β) : alistGet (dictSet m k v) k = some v := by
  induction m with
  | nil => simp [dictSet, alistGet]
  | cons e rest ih =>
    by_cases h : e.1 = k
    · simp [dictSet, h, alistGet]
    · simp [dictSet, h, alistGet, ih]

theorem alistGet_dictSet_ne {κ β : Type} [DecidableEq κ] (m : List (κ × β))
    {k k' : κ} (v : β) (h : k' ≠ k) :
    alistGet (dictSet m k v) k' = alistGet m k' := by
  induction m with
  | nil => simp [dictSet, alistGet, Ne.symm h]
  | cons e rest ih =>
    by_cases he : e.1 = k
    · subst he
      simp [dictSet, alistGet, Ne.symm h]
    · simp only [dictSet, if_neg he]
      by_cases he' : e.1 = k'
      · simp [alistGet, he']
      · simp [alistGet, he', ih]

theorem alistGet_of_nodup_mem {κ β : Type} [DecidableEq κ]
    {m : List (κ × β)} {e : κ × β} (hnd : (m.map Prod.fst).Nodup)
    (hmem : e ∈ m) : alistGet m e.1 = some e.2 := by
  induction m with
  | nil => cases hmem
  | cons a rest ih =>
    rcases List.mem_cons.mp hmem with h | h
    · subst h
      simp [alistGet]
    · have ha : a.1 ≠ e.1 := by
        intro hh
        have : e.1 ∈ rest.map Prod.fst := List.mem_map_of_mem Prod.fst h
        rw [← hh] at this
        exact (List.nodup_cons.mp hnd).1 this
      simp [alistGet, ha, ih (List.nodup_cons.mp hnd).2 h]

/-! ## Characterisation of `calculateApIapRef` -/

/-- One longitude iteration of the combination loop (iap.py 522-527). -/
def combineStep {α : Type} [Field α] [DecidableEq α] (q n : α) (asas : Store α)
    (lat : α) (acc : Store α) (lonE : α × List α) : Store α :=
  dictSet acc lat [(lonE.1, combineVals q n (storeVals asas lat lonE.1) lonE.2)]

/-- One latitude iteration of the combination loop (iap.py 521-527). -/
def combineLat {α : Type} [Field α] [DecidableEq α] (q n : α) (asas : Store α)
    (acc : Store α) (latE : α × List (α × List α)) : Store α :=
  latE.2.foldl (combineStep q n asas latE.1) acc

theorem calculateApIapRef_eq_foldl {α : Type} [Field α] [DecidableEq α]
    (q n : α) (asas ap : Store α) :
    calculateApIapRef q n asas ap = ap.foldl (combineLat q n asas) [] := rfl

theorem combineInner_get_ne {α : Type} [Field α] [DecidableEq α] (q n : α)
    (asas : Store α) (lat lat' : α) (h : lat' ≠ lat) :
    ∀ (lons : List (α × List α)) (acc : Store α),
    alistGet (lons.foldl (combineStep q n asas lat) acc) lat' =
      alistGet acc lat' := by
  intro lons
  induction lons with
  | nil => intro acc; rfl
  | cons e rest ih =>
    intro acc
    rw [List.foldl_cons, ih]
    exact alistGet_dictSet_ne _ _ h

theorem combineInner_get_self {α : Type} [Field α] [DecidableEq α] (q n : α)
    (asas : Store α) (lat : α) :
    ∀ (lons : List (α × List α)) (acc : Store α), lons ≠ [] →
    ∃ le, lons.getLast? = some le ∧
      alistGet (lons.foldl (combineStep q n asas lat) acc) lat =
        some [(le.1, combineVals q n (storeVals asas lat le.1) le.2)] := by
  intro lons
  induction lons with
  | nil => intro acc h; cases h rfl
  | cons e rest ih =>
    intro acc _
    cases rest with
    | nil =>
      refine ⟨e, rfl, ?_⟩
      rw [List.foldl_cons, List.foldl_nil]
      exact alistGet_dictSet_self _ _ _
    | cons e2 rest2 =>
      obtain ⟨le, hlast, hget⟩ :=
        ih (combineStep q n asas lat acc e) (by simp)
      exact ⟨le, by rw [List.getLast?_cons_cons]; exact hlast, hget⟩

theorem combineFold_get_notmem {α : Type} [Field α] [DecidableEq α] (q n : α)
    (asas : Store α) {lat : α} :
    ∀ (ap : Store α) (acc : Store α), lat ∉ ap.map Prod.fst →
    alistGet (ap.foldl (combineLat q n asas) acc) lat = alistGet acc lat := by
  intro ap
  induction ap with
  | nil => intro acc _; rfl
  | cons latE rest ih =>
    intro acc hnot
    rw [List.foldl_cons,
      ih _ (fun h => hnot (List.mem_cons_of_mem _ h))]
    exact combineInner_get_ne q n asas latE.1 lat
      (fun h => hnot (by rw [h]; exact List.mem_cons_self _ _)) latE.2 acc

theorem getLast?_mem_self {α : Type} :
    ∀ {l : List α} {a : α}, l.getLast? = some a → a ∈ l
  | [b], a, h => by
    simp only [List.getLast?_singleton, Option.some.injEq] at h
    exact h ▸ List.mem_singleton_self b
  | b :: c :: t, a, h => by
    rw [List.getLast?_cons_cons] at h
    exact List.mem_cons_of_mem _ (getLast?_mem_self h)

/-- What one latitude group contributes to the combination result: the survivor
is the group's last longitude entry (earlier longitudes are wiped by the
re-initialisation at iap.py 523). -/
def combineLatResult {α : Type} [Field α] [DecidableEq α] (q n : α)
    (asas : Store α) (lat : α) (lons : List (α × List α)) :
    Option (List (α × List α)) :=
  match lons.getLast? with
  | none => none
  | some le => some [(le.1, combineVals q n (storeVals asas lat le.1) le.2)]

theorem combineFold_char {α : Type} [Field α] [DecidableEq α] (q n : α)
    (asas : Store α) :
    ∀ (ap : Store α) (acc : Store α), (ap.map Prod.fst).Nodup →
    (∀ k ∈ ap.map Prod.fst, alistGet acc k = none) → ∀ lat,
    alistGet (ap.foldl (combineLat q n asas) acc) lat =
      match alistGet ap lat with
      | none => alistGet acc lat
      | some lons => combineLatResult q n asas lat lons := by
  intro ap
  induction ap with
  | nil => intro acc _ _ lat; rfl
  | cons latE rest ih =>
    intro acc hnd hacc lat
    have hnd1 : latE.1 ∉ rest.map Prod.fst := (List.nodup_cons.mp hnd).1
    have hnd2 : (rest.map Prod.fst).Nodup := (List.nodup_cons.mp hnd).2
    rw [List.foldl_cons]
    by_cases hlat : latE.1 = lat
    · subst hlat
      rw [combineFold_get_notmem q n asas rest _ hnd1]
      have hget : alistGet (latE :: rest) latE.1 = some latE.2 := by
        simp [alistGet]
      rw [hget]
      by_cases h2 : latE.2 = []
      · have hacc0 : alistGet acc latE.1 = none :=
          hacc latE.1 (List.mem_cons_self _ _)
        simp [combineLat, h2, combineLatResult, hacc0]
      · obtain ⟨le, hlast, hres⟩ :=
          combineInner_get_self q n asas latE.1 latE.2 acc h2
        unfold combineLat
        rw [hres]
        simp [combineLatResult, hlast]
    · have hget : alistGet (latE :: rest) lat = alistGet rest lat := by
        simp [alistGet, hlat]
      rw [hget]
      have haccs : ∀ k ∈ rest.map Prod.fst,
          alistGet (combineLat q n asas acc latE) k = none := by
        intro k hk
        have hkne : k ≠ latE.1 := fun h => hnd1 (h ▸ hk)
        unfold combineLat
        rw [combineInner_get_ne q n asas latE.1 k hkne]
        exact hacc k (List.mem_cons_of_mem _ hk)
      rw [ih _ hnd2 haccs lat]
      have haccne : alistGet (combineLat q n asas acc latE) lat =
          alistGet acc lat := by
        unfold combineLat
        exact combineInner_get_ne q n asas latE.1 lat
          (fun h => hlat h.symm) latE.2 acc
      cases halist : alistGet rest lat with
      | none => exact haccne
      | some lons => rfl

theorem alistGet_mem {κ β : Type} [DecidableEq κ] :
    ∀ {m : List (κ × β)} {k : κ} {v : β}, alistGet m k = some v → (k, v) ∈ m := by
  intro m
  induction m with
  | nil => intro k v h; cases h
  | cons e rest ih =>
    intro k v h
    by_cases he : e.1 = k
    · simp only [alistGet, if_pos he, Option.some.injEq] at h
      have : (k, v) = e := by
        rw [← he, ← h]
      exact this ▸ List.mem_cons_self _ _
    · simp only [alistGet, if_neg he] at h
      exact List.mem_cons_of_mem _ (ih h)

theorem combineVals_length {α : Type} [Field α] (q n : α) (a v : List α) :
    (combineVals q n a v).length = v.length := by
  simp [combineVals]

theorem combineVals_getD {α : Type} [Field α] (q n : α) (a v : List α)
    {i : ℕ} (h : i < v.length) :
    (combineVals q n a v).getD i 0 = (q - v.getD i 0) / n + a.getD i 0 := by
  unfold combineVals
  rw [List.getD_eq_getElem?_getD, List.getElem?_map, List.getElem?_range h]
  rfl

/-- Claim C1: every value present in the result of `calculateApIapRef` equals
`((threshold - global_total) / peer_group_size) + local_total` at its
(latitude, longitude) key and channel index, where the totals are read from the
two aggregation stores. -/
theorem claim_C1 {α : Type} [Field α] [DecidableEq α] (q n : α)
    (asas ap : Store α) (lat lon : α) (rvals : List α)
    (hnd : (ap.map Prod.fst).Nodup)
    (hndl : ∀ e ∈ ap, (e.2.map Prod.fst).Nodup)
    (hres : storeLookup (calculateApIapRef q n asas ap) lat lon = some rvals) :
    rvals.length = (storeVals ap lat lon).length ∧
    ∀ i < (storeVals ap lat lon).length,
      rvals.getD i 0 =
        (q - (storeVals ap lat lon).getD i 0) / n +
          (storeVals asas lat lon).getD i 0 := by
  have hchar := combineFold_char q n asas ap [] hnd (fun k _ => rfl) lat
  rw [calculateApIapRef_eq_foldl] at hres
  unfold storeLookup at hres
  cases hap : alistGet ap lat with
  | none =>
    rw [hap] at hchar
    rw [hchar] at hres
    cases hres
  | some lons =>
    rw [hap] at hchar
    cases hlast : lons.getLast? with
    | none =>
      have hchar2 : alistGet (List.foldl (combineLat q n asas) [] ap) lat =
          none := by
        rw [hchar]
        show combineLatResult q n asas lat lons = none
        unfold combineLatResult
        rw [hlast]
      rw [hchar2] at hres
      cases hres
    | some le =>
      have hchar2 : alistGet (List.foldl (combineLat q n asas) [] ap) lat =
          some [(le.1, combineVals q n (storeVals asas lat le.1) le.2)] := by
        rw [hchar]
        show combineLatResult q n asas lat lons = _
        unfold combineLatResult
        rw [hlast]
      rw [hchar2] at hres
      by_cases hlon : le.1 = lon
      · simp only [alistGet, if_pos hlon, Option.some.injEq] at hres
        have hmem : le ∈ lons := getLast?_mem_self hlast
        have hapmem : (lat, lons) ∈ ap := alistGet_mem hap
        have hlnd : (lons.map Prod.fst).Nodup := hndl (lat, lons) hapmem
        have hget2 : alistGet lons lon = some le.2 := by
          rw [← hlon]
          exact alistGet_of_nodup_mem hlnd hmem
        have hvals : storeVals ap lat lon = le.2 := by
          unfold storeVals storeLookup
          rw [hap]
          show (alistGet lons lon).getD [] = le.2
          rw [hget2]
          rfl
        have hrv : rvals = combineVals q n (storeVals asas lat lon) le.2 := by
          rw [← hres, hlon]
        constructor
        · rw [hrv, combineVals_length, hvals]
        · intro i hi
          rw [hvals] at hi
          rw [hrv, hvals, combineVals_getD q n _ _ hi]
      · simp only [alistGet, if_neg hlon] at hres
        cases hres

/-- Witness for claim C1: the literal spec scenario with threshold 100 mW,
peer group size 2, global total 60 mW, local total 10 mW gives 30 mW. -/
theorem claim_C1_witness :
    storeLookup
      (calculateApIapRef (100 : ℚ) 2 [(1, [(2, [10])])] [(1, [(2, [60])])])
      1 2 = some [30] ∧
    ([(30 : ℚ)].getD 0 0 =
      (100 - (storeVals ([(1, [(2, [60])])] : Store ℚ) 1 2).getD 0 0) / 2 +
        (storeVals ([(1, [(2, [10])])] : Store ℚ) 1 2).getD 0 0) := by
  have hlook : storeLookup
      (calculateApIapRef (100 : ℚ) 2 [(1, [(2, [10])])] [(1, [(2, [60])])])
      1 2 = some [30] := by
    norm_num [calculateApIapRef, dictSet, storeVals, storeLookup, alistGet,
      combineVals, List.range_succ]
  refine ⟨hlook, ?_⟩
  have hlen : (storeVals ([(1, [(2, [60])])] : Store ℚ) 1 2).length = 1 := by
    norm_num [storeVals, storeLookup, alistGet]
  have := (claim_C1 (100 : ℚ) 2 [(1, [(2, [10])])] [(1, [(2, [60])])] 1 2 [30]
    (by simp) (by simp) hlook).2 0 (by rw [hlen]; norm_num)
  exact this

/-- Claim C2 (evaluation at the failing input): with two longitudes 2 and 3
sharing latitude 1 in the global-total store, `calculateApIapRef` drops the
entry for (1, 2): the key is present in the global store (value 60) but absent
from the result, because the latitude dictionary is re-created for every
longitude (iap.py 523). -/
theorem claim_C2_eval :
    storeLookup ([(1, [(2, [60]), (3, [60])])] : Store ℚ) 1 2 = some [60] ∧
    calculateApIapRef (100 : ℚ) 2 [(1, [(2, [10]), (3, [10])])]
      [(1, [(2, [60]), (3, [60])])] = [(1, [(3, [30])])] ∧
    storeLookup
      (calculateApIapRef (100 : ℚ) 2 [(1, [(2, [10]), (3, [10])])]
        [(1, [(2, [60]), (3, [60])])]) 1 2 = none := by
  refine ⟨by norm_num [storeLookup, alistGet], ?_, ?_⟩
  · norm_num [calculateApIapRef, dictSet, storeVals, storeLookup, alistGet,
      combineVals, List.range_succ]
  · norm_num [calculateApIapRef, dictSet, storeVals, storeLookup, alistGet,
      combineVals, List.range_succ]

/-! ## Claim C6: the ESC roll-off quota -/

theorem mem_getProtectedChannels {low high : ℚ} {ch : ℚ × ℚ} :
    ch ∈ getProtectedChannels low high ↔
    ∃ k : ℕ, k < (Int.ceil ((high - low) / 5000000)).toNat ∧
      ch = (low + 5000000 * (k : ℚ), low + 5000000 * ((k : ℚ) + 1)) := by
  unfold getProtectedChannels
  rw [List.mem_map]
  constructor
  · rintro ⟨k, hk, rfl⟩
    exact ⟨k, List.mem_range.mp hk, rfl⟩
  · rintro ⟨k, hk, rfl⟩
    exact ⟨k, List.mem_range.mpr hk, rfl⟩

/-- Claim C6: for every channel of the ESC channelisation, the quota is the
base threshold attenuated in dB by `2.5 + (distance of the channel center from
the channel-21 center, in MHz)` exactly when the channel center lies above the
3650 MHz cutoff, and the base threshold unchanged otherwise; a channel centered
10 MHz above the channel-21 center is attenuated by 12.5 dB. -/
theorem claim_C6 :
    (∀ ch ∈ getProtectedChannels ESC_LOW_FREQ_HZ ESC_HIGH_FREQ_HZ,
      ∀ (dbToLin linToDb : ℚ → ℚ) (threshold : ℚ),
      escChannelQuota dbToLin linToDb threshold ch =
        if (3650000000 : ℚ) < (ch.1 + ch.2) / 2 then
          dbToLin (linToDb threshold - escRollOffDb ch)
        else threshold) ∧
    (∀ ch : ℚ × ℚ, (ch.1 + ch.2) / 2 = ESC_CH21_CF_HZ + 10 * MHZ →
      escRollOffDb ch = 25 / 2) := by
  constructor
  · intro ch hch dbToLin linToDb threshold
    rw [mem_getProtectedChannels] at hch
    obtain ⟨k, _, rfl⟩ := hch
    have hiff : ((3650000000 : ℚ) ≤ ESC_LOW_FREQ_HZ + 5000000 * (k : ℚ)) ↔
        ((3650000000 : ℚ) <
          ((ESC_LOW_FREQ_HZ + 5000000 * (k : ℚ)) +
            (ESC_LOW_FREQ_HZ + 5000000 * ((k : ℚ) + 1))) / 2) := by
      unfold ESC_LOW_FREQ_HZ
      constructor
      · intro h
        linarith
      · intro h
        have h195 : (39 : ℚ) / 2 < (k : ℚ) := by linarith
        have h20 : (20 : ℚ) ≤ (k : ℚ) := by
          rcases Nat.lt_or_ge k 20 with hk | hk
          · have : (k : ℚ) ≤ 19 := by
              exact_mod_cast Nat.le_of_lt_succ hk
            linarith
          · exact_mod_cast hk
        linarith
    unfold escChannelQuota
    rw [if_congr hiff rfl rfl]
  · intro ch h
    unfold escRollOffDb
    rw [h]
    norm_num [ESC_CH21_CF_HZ, MHZ]

/-- Witness for claim C6: the channel (3660, 3665) MHz, centered 10 MHz above
the channel-21 center, takes the attenuated branch with a 12.5 dB roll-off. -/
theorem claim_C6_witness :
    ((3660000000 : ℚ), (3665000000 : ℚ)) ∈
      getProtectedChannels ESC_LOW_FREQ_HZ ESC_HIGH_FREQ_HZ ∧
    escChannelQuota id id 0 ((3660000000 : ℚ), (3665000000 : ℚ)) =
      (if (3650000000 : ℚ) < ((3660000000 : ℚ) + 3665000000) / 2 then
        id (id 0 - escRollOffDb ((3660000000 : ℚ), (3665000000 : ℚ)))
      else 0) ∧
    escRollOffDb ((3660000000 : ℚ), (3665000000 : ℚ)) = 25 / 2 := by
  have hmem : ((3660000000 : ℚ), (3665000000 : ℚ)) ∈
      getProtectedChannels ESC_LOW_FREQ_HZ ESC_HIGH_FREQ_HZ := by
    rw [mem_getProtectedChannels]
    exact ⟨22, by norm_num [ESC_LOW_FREQ_HZ, ESC_HIGH_FREQ_HZ],
      by norm_num [ESC_LOW_FREQ_HZ, Prod.ext_iff]⟩
  exact ⟨hmem, claim_C6.1 _ hmem id id 0,
    claim_C6.2 _ (by norm_num [ESC_CH21_CF_HZ, MHZ])⟩

/-! ## Claim C5: the threshold argument of the Combination step -/

theorem iap_threshold_gwpz_neg : iap_threshold_gwpz < 0 := by
  have hlog : Real.logb 10 ((1 : ℝ) / 2) < 0 :=
    Real.logb_neg (by norm_num) (by norm_num) (by norm_num)
  unfold iap_threshold_gwpz Q_GWPZ_DBM_PER_RBW linearToDb IAPBW_HZ GWPZ_RBW_HZ
  have h : (5000000 : ℝ) / 10000000 = 1 / 2 := by norm_num
  rw [h]
  linarith

theorem iap_threshold_ppa_neg : iap_threshold_ppa < 0 := by
  have hlog : Real.logb 10 ((1 : ℝ) / 2) < 0 :=
    Real.logb_neg (by norm_num) (by norm_num) (by norm_num)
  unfold iap_threshold_ppa Q_PPA_DBM_PER_RBW linearToDb IAPBW_HZ PPA_RBW_HZ
  have h : (5000000 : ℝ) / 10000000 = 1 / 2 := by norm_num
  rw [h]
  linarith

theorem dbToLinear_pos (x : ℝ) : 0 < dbToLinear x := by
  unfold dbToLinear
  exact Real.rpow_pos_of_pos (by norm_num) _

/-- Claim C5 (evaluation at the failing input): the GWPZ and PPA drivers pass
the dB-scale `iap_threshold_gwpz` / `iap_threshold_ppa` to `calculateApIapRef`
(iap.py 316 and 384); both values are negative, whereas the linear-scale (mW)
value `dbToLinear(threshold - margin)` that the claim (and the `q_p` docstring
of `calculateApIapRef`) require is positive, so the passed argument differs
from the claimed one. -/
theorem claim_C5_eval :
    gwpzCombinationThresholdArg < 0 ∧ 0 < iap_margin_gwpz ∧
    gwpzCombinationThresholdArg ≠ iap_margin_gwpz ∧
    ppaCombinationThresholdArg < 0 ∧ 0 < iap_margin_ppa ∧
    ppaCombinationThresholdArg ≠ iap_margin_ppa := by
  have h1 : gwpzCombinationThresholdArg < 0 := iap_threshold_gwpz_neg
  have h2 : 0 < iap_margin_gwpz := dbToLinear_pos _
  have h3 : ppaCombinationThresholdArg < 0 := iap_threshold_ppa_neg
  have h4 : 0 < iap_margin_ppa := dbToLinear_pos _
  exact ⟨h1, h2, ne_of_lt (lt_trans h1 h2), h3, h4,
    ne_of_lt (lt_trans h3 h4)⟩

/-! ## Claims C3 and C4: the FSS-blocking exemption and the unmatched PAL
lookup both fall through to the Combination call -/

/-- Claim C3 counterexample: an FSS-blocking entity with passband
3700-4200 MHz and TT&C flag False (the exemption case).  The driver skips the
aggregation, but it does NOT return without calling the Combination step: with
the module-level stores still holding data from a previous run, the returned
result is non-empty, refuting the claim that no result is produced. -/
theorem claim_C3_counterexample :
    (performIapForFssBlocking id 3700000000 4200000000 false 2
      ([(1, [(2, [10])])], [(1, [(2, [60])])])).2 ≠ [] ∧
    (performIapForFssBlocking id 3700000000 4200000000 false 2
      ([(1, [(2, [10])])], [(1, [(2, [60])])])).1 =
      ([(1, [(2, [10])])], [(1, [(2, [60])])]) := by
  unfold performIapForFssBlocking
  rw [if_pos (by norm_num [FSS_TTC_LOW_FREQ_HZ, FSS_TTC_HIGH_FREQ_HZ])]
  refine ⟨?_, rfl⟩
  simp only [calculateApIapRef, List.foldl_cons, List.foldl_nil, dictSet]
  exact List.cons_ne_nil _ _

/-- Claim C3 amended: when the FSS passband lies inside the 3700-4200 MHz
telemetry/command band and the TT&C flag is False, `performIapForFssBlocking`
performs no aggregation (no store reset, no `iapPointConstraint` call, the
stores pass through unchanged) but still invokes `calculateApIapRef` on the
current store contents and returns its result. -/
theorem claim_C3_amended
    (pointRun : Store ℝ × Store ℝ → Store ℝ × Store ℝ)
    (fssLowFreq fssHighFreq : ℝ) (fssTtcFlag : Bool) (numSas : ℝ)
    (st : Store ℝ × Store ℝ)
    (h1 : FSS_TTC_LOW_FREQ_HZ ≤ fssLowFreq)
    (h2 : fssHighFreq ≤ FSS_TTC_HIGH_FREQ_HZ)
    (h3 : fssTtcFlag = false) :
    performIapForFssBlocking pointRun fssLowFreq fssHighFreq fssTtcFlag numSas
      st =
      (st, calculateApIapRef iap_margin_fss_blocking numSas st.1 st.2) := by
  unfold performIapForFssBlocking
  rw [if_pos ⟨h1, h2, h3⟩]

/-- Witness for claim C3 amended: the exemption scenario at a concrete store
pair. -/
theorem claim_C3_witness :
    FSS_TTC_LOW_FREQ_HZ ≤ (3700000000 : ℝ) ∧
    (4200000000 : ℝ) ≤ FSS_TTC_HIGH_FREQ_HZ ∧
    performIapForFssBlocking id 3700000000 4200000000 false 2
      ([(1, [(2, [10])])], [(1, [(2, [60])])]) =
      (([(1, [(2, [10])])], [(1, [(2, [60])])]),
        calculateApIapRef iap_margin_fss_blocking 2 [(1, [(2, [10])])]
          [(1, [(2, [60])])]) :=
  ⟨by norm_num [FSS_TTC_LOW_FREQ_HZ], by norm_num [FSS_TTC_HIGH_FREQ_HZ],
    claim_C3_amended id 3700000000 4200000000 false 2
      ([(1, [(2, [10])])], [(1, [(2, [60])])])
      (by norm_num [FSS_TTC_LOW_FREQ_HZ])
      (by norm_num [FSS_TTC_HIGH_FREQ_HZ]) rfl⟩

/-- Claim C4 counterexample: a PPA whose required PAL identifier (7) matches no
supplied PAL record (the only record has identifier 5).  The driver performs no
IAP, but it does NOT return without calling the Combination step: with the
module-level stores still holding data from a previous run the returned result
is non-empty, refuting the claim that no result is produced. -/
theorem claim_C4_counterexample :
    (performIapForPpa (fun _ s => s) 7 [⟨5, 0, 0⟩] 2
      ([(1, [(2, [10])])], [(1, [(2, [60])])])).2 ≠ [] ∧
    (performIapForPpa (fun _ s => s) 7 [⟨5, 0, 0⟩] 2
      ([(1, [(2, [10])])], [(1, [(2, [60])])])).1 =
      ([(1, [(2, [10])])], [(1, [(2, [60])])]) := by
  unfold performIapForPpa
  have hfind : ([⟨5, 0, 0⟩] : List PalRecord).find?
      (fun r => r.palId = 7) = none := by
    simp [List.find?]
  rw [hfind]
  refine ⟨?_, rfl⟩
  simp only [calculateApIapRef, List.foldl_cons, List.foldl_nil, dictSet]
  exact List.cons_ne_nil _ _

/-- Claim C4 amended: when no PAL record matches the PPA's required PAL
identifier, `performIapForPpa` performs no aggregation (no store reset, no
`iapPointConstraint` call, the stores pass through unchanged) but still invokes
`calculateApIapRef` on the current store contents and returns its result. -/
theorem claim_C4_amended
    (pointRuns : PalRecord → Store ℝ × Store ℝ → Store ℝ × Store ℝ)
    (ppaPalId0 : ℕ) (palRecords : List PalRecord) (numSas : ℝ)
    (st : Store ℝ × Store ℝ)
    (h : ∀ r ∈ palRecords, r.palId ≠ ppaPalId0) :
    performIapForPpa pointRuns ppaPalId0 palRecords numSas st =
      (st, calculateApIapRef ppaCombinationThresholdArg numSas st.1 st.2) := by
  unfold performIapForPpa
  have hfind : palRecords.find? (fun r => r.palId = ppaPalId0) = none := by
    rw [List.find?_eq_none]
    intro r hr
    simp [h r hr]
  rw [hfind]

/-- Witness for claim C4 amended: the unmatched-identifier scenario at a
concrete store pair. -/
theorem claim_C4_witness :
    (∀ r ∈ ([⟨5, 0, 0⟩] : List PalRecord), r.palId ≠ 7) ∧
    performIapForPpa (fun _ s => s) 7 [⟨5, 0, 0⟩] 2
      ([(1, [(2, [10])])], [(1, [(2, [60])])]) =
      (([(1, [(2, [10])])], [(1, [(2, [60])])]),
        calculateApIapRef ppaCombinationThresholdArg 2 [(1, [(2, [10])])]
          [(1, [(2, [60])])]) :=
  ⟨by intro r hr; simp at hr; rw [hr]; norm_num,
    claim_C4_amended (fun _ s => s) 7 [⟨5, 0, 0⟩] 2
      ([(1, [(2, [10])])], [(1, [(2, [60])])])
      (by intro r hr; simp at hr; rw [hr]; norm_num)⟩

/-! ## Claim C9: key alignment of the two aggregation stores -/

/-- The shape of a longitude dictionary: keys with value-list lengths. -/
def lonShape (lons : List (ℚ × List ℚ)) : List (ℚ × ℕ) :=
  lons.map (fun e => (e.1, e.2.length))

/-- The shape of a store: its nested keys with value-list lengths. -/
def storeShape (s : Store ℚ) : List (ℚ × List (ℚ × ℕ)) :=
  s.map (fun e => (e.1, lonShape e.2))

/-- The effect of `lonAppend` on a longitude shape. -/
def lonAppendShape (lon : ℚ) : List (ℚ × ℕ) → List (ℚ × ℕ)
  | [] => [(lon, 1)]
  | e :: rest =>
    if e.1 = lon then (e.1, e.2 + 1) :: rest else e :: lonAppendShape lon rest

/-- The effect of `setAggInfo` on a store shape. -/
def setShape (lat lon : ℚ) :
    List (ℚ × List (ℚ × ℕ)) → List (ℚ × List (ℚ × ℕ))
  | [] => [(lat, [(lon, 1)])]
  | e :: rest =>
    if e.1 = lat then (e.1, lonAppendShape lon e.2) :: rest
    else e :: setShape lat lon rest

theorem lonShape_cons (e : ℚ × List ℚ) (t : List (ℚ × List ℚ)) :
    lonShape (e :: t) = (e.1, e.2.length) :: lonShape t := rfl

theorem lonAppendShape_cons (lon : ℚ) (e : ℚ × ℕ) (t : List (ℚ × ℕ)) :
    lonAppendShape lon (e :: t) =
      if e.1 = lon then (e.1, e.2 + 1) :: t else e :: lonAppendShape lon t :=
  rfl

theorem storeShape_cons (e : ℚ × List (ℚ × List ℚ)) (t : Store ℚ) :
    storeShape (e :: t) = (e.1, lonShape e.2) :: storeShape t := rfl

theorem setShape_cons (lat lon : ℚ) (e : ℚ × List (ℚ × ℕ))
    (t : List (ℚ × List (ℚ × ℕ))) :
    setShape lat lon (e :: t) =
      if e.1 = lat then (e.1, lonAppendShape lon e.2) :: t
      else e :: setShape lat lon t :=
  rfl

theorem lonShape_lonAppend (lon v : ℚ) (lons : List (ℚ × List ℚ)) :
    lonShape (lonAppend lon v lons) = lonAppendShape lon (lonShape lons) := by
  induction lons with
  | nil => rfl
  | cons e rest ih =>
    show lonShape (if e.1 = lon then (e.1, e.2 ++ [v]) :: rest
      else e :: lonAppend lon v rest) = _
    rw [lonShape_cons, lonAppendShape_cons]
    by_cases h : e.1 = lon
    · rw [if_pos h, if_pos h, lonShape_cons]
      simp
    · rw [if_neg h, if_neg h, lonShape_cons, ih]

theorem storeShape_setAggInfo (lat lon v : ℚ) (s : Store ℚ) :
    storeShape (setAggInfo lat lon v s) = setShape lat lon (storeShape s) := by
  induction s with
  | nil => rfl
  | cons e rest ih =>
    show storeShape (if e.1 = lat then (e.1, lonAppend lon v e.2) :: rest
      else e :: setAggInfo lat lon v rest) = _
    rw [storeShape_cons, setShape_cons]
    by_cases h : e.1 = lat
    · rw [if_pos h, if_pos h, storeShape_cons, lonShape_lonAppend]
    · rw [if_neg h, if_neg h, storeShape_cons, ih]

theorem channelStep_shape (ext : ExternalModel) (fuel : ℕ) (point : ℚ × ℚ)
    (lowFreq highFreq : ℚ) (grantsInside : List Grant) (threshold : ℚ)
    (entType : ProtectedEntityType) (st : Store ℚ × Store ℚ) (ch : ℚ × ℚ)
    (h : storeShape st.1 = storeShape st.2) :
    storeShape
        (channelStep ext fuel point lowFreq highFreq grantsInside threshold
          entType st ch).1 =
      storeShape
        (channelStep ext fuel point lowFreq highFreq grantsInside threshold
          entType st ch).2 := by
  simp only [channelStep]
  split <;> split <;>
    first
      | exact h
      | simp only [storeShape_setAggInfo, h]

theorem foldl_channelStep_shape (ext : ExternalModel) (fuel : ℕ)
    (point : ℚ × ℚ) (lowFreq highFreq : ℚ) (grantsInside : List Grant)
    (threshold : ℚ) (entType : ProtectedEntityType) :
    ∀ (channels : List (ℚ × ℚ)) (st : Store ℚ × Store ℚ),
    storeShape st.1 = storeShape st.2 →
    storeShape
        (channels.foldl
          (channelStep ext fuel point lowFreq highFreq grantsInside threshold
            entType) st).1 =
      storeShape
        (channels.foldl
          (channelStep ext fuel point lowFreq highFreq grantsInside threshold
            entType) st).2 := by
  intro channels
  induction channels with
  | nil => intro st h; exact h
  | cons ch rest ih =>
    intro st h
    rw [List.foldl_cons]
    exact ih _ (channelStep_shape ext fuel point lowFreq highFreq grantsInside
      threshold entType st ch h)

theorem iapPointConstraint_shape (ext : ExternalModel) (fuel : ℕ)
    (point : ℚ × ℚ) (channels : List (ℚ × ℚ)) (lowFreq highFreq : ℚ)
    (grants : List Grant) (threshold : ℚ) (entType : ProtectedEntityType)
    (st : Store ℚ × Store ℚ) (h : storeShape st.1 = storeShape st.2) :
    storeShape
        (iapPointConstraint ext fuel point channels lowFreq highFreq grants
          threshold entType st).1 =
      storeShape
        (iapPointConstraint ext fuel point channels lowFreq highFreq grants
          threshold entType st).2 := by
  simp only [iapPointConstraint]
  split
  · exact foldl_channelStep_shape ext fuel point lowFreq highFreq _ threshold
      entType channels st h
  · exact h

/-- One `iapPointConstraint` invocation's argument bundle. -/
structure PointRunArgs where
  ext : ExternalModel
  fuel : ℕ
  point : ℚ × ℚ
  channels : List (ℚ × ℚ)
  lowFreq : ℚ
  highFreq : ℚ
  grants : List Grant
  threshold : ℚ
  entType : ProtectedEntityType

/-- Apply one `iapPointConstraint` invocation to the store pair. -/
def applyPointRun (st : Store ℚ × Store ℚ) (a : PointRunArgs) :
    Store ℚ × Store ℚ :=
  iapPointConstraint a.ext a.fuel a.point a.channels a.lowFreq a.highFreq
    a.grants a.threshold a.entType st

/-- A sequence of `iapPointConstraint` invocations starting from freshly reset
(empty) stores, as an Entity Driver performs them. -/
def runAll (runs : List PointRunArgs) : Store ℚ × Store ℚ :=
  runs.foldl applyPointRun (([], []) : Store ℚ × Store ℚ)

/-- The keys of a store shape. -/
def shapeKeys (sh : List (ℚ × List (ℚ × ℕ))) : List (ℚ × ℚ) :=
  (sh.map (fun e => e.2.map (fun l => (e.1, l.1)))).flatten

/-- The value-list length a shape records at a key. -/
def shapeLen (sh : List (ℚ × List (ℚ × ℕ))) (lat lon : ℚ) : ℕ :=
  match alistGet sh lat with
  | none => 0
  | some ls =>
    match alistGet ls lon with
    | none => 0
    | some m => m

theorem alistGet_map_snd {κ β γ : Type} [DecidableEq κ] (f : β → γ) :
    ∀ (m : List (κ × β)) (k : κ),
    alistGet (m.map (fun e => (e.1, f e.2))) k = (alistGet m k).map f := by
  intro m
  induction m with
  | nil => intro k; rfl
  | cons e rest ih =>
    intro k
    by_cases h : e.1 = k
    · simp [alistGet, h]
    · simp [alistGet, h, ih]

theorem storeKeys_eq_shapeKeys (s : Store ℚ) :
    storeKeys s = shapeKeys (storeShape s) := by
  simp [storeKeys, shapeKeys, storeShape, lonShape, List.map_map,
    Function.comp_def]

theorem storeVals_length_eq_shapeLen (s : Store ℚ) (lat lon : ℚ) :
    (storeVals s lat lon).length = shapeLen (storeShape s) lat lon := by
  unfold storeVals storeLookup shapeLen storeShape
  rw [show (fun e : ℚ × List (ℚ × List ℚ) => (e.1, lonShape e.2)) =
    (fun e : ℚ × List (ℚ × List ℚ) => (e.1, lonShape e.2)) from rfl,
    alistGet_map_snd lonShape s lat]
  cases hg : alistGet s lat with
  | none => rfl
  | some lons =>
    show ((alistGet lons lon).getD []).length =
      match alistGet (lonShape lons) lon with
      | none => 0
      | some m => m
    unfold lonShape
    rw [alistGet_map_snd List.length lons lon]
    cases hg2 : alistGet lons lon with
    | none => rfl
    | some vs => rfl

/-- Claim C9: after any sequence of `iapPointConstraint` invocations following
a store reset, the (latitude, longitude) key sets of the local-authority-total
store and the global-total store coincide, and the per-channel lists at every
key have equal length. -/
theorem claim_C9 (runs : List PointRunArgs) :
    storeKeys (runAll runs).1 = storeKeys (runAll runs).2 ∧
    ∀ lat lon : ℚ,
      (storeVals (runAll runs).1 lat lon).length =
        (storeVals (runAll runs).2 lat lon).length := by
  have hshape : storeShape (runAll runs).1 = storeShape (runAll runs).2 := by
    unfold runAll
    have hgen : ∀ (l : List PointRunArgs) (st : Store ℚ × Store ℚ),
        storeShape st.1 = storeShape st.2 →
        storeShape (l.foldl applyPointRun st).1 =
          storeShape (l.foldl applyPointRun st).2 := by
      intro l
      induction l with
      | nil => intro st h; exact h
      | cons a rest ih =>
        intro st h
        rw [List.foldl_cons]
        exact ih _ (iapPointConstraint_shape a.ext a.fuel a.point a.channels
          a.lowFreq a.highFreq a.grants a.threshold a.entType st h)
    exact hgen runs ([], []) rfl
  constructor
  · rw [storeKeys_eq_shapeKeys, storeKeys_eq_shapeKeys, hshape]
  · intro lat lon
    rw [storeVals_length_eq_shapeLen, storeVals_length_eq_shapeLen, hshape]

/-! ## Claim C10: empty neighborhoods and non-overlapping channels are
silently skipped -/

/-- Claim C10: (a) a channel with no overlapping grant writes nothing and the
run proceeds to the remaining channels unchanged; (b) a point with an empty
grant neighborhood leaves the stores untouched; (c) on untouched (reset)
stores the Combination step yields the empty result, so such a point is absent
from (not zero in) the Combination output. -/
theorem claim_C10 :
    (∀ (ext : ExternalModel) (fuel : ℕ) (point : ℚ × ℚ)
      (channels : List (ℚ × ℚ)) (lowFreq highFreq : ℚ) (grants : List Grant)
      (threshold : ℚ) (entType : ProtectedEntityType) (st : Store ℚ × Store ℚ),
      ext.findInside grants point entType = [] →
      iapPointConstraint ext fuel point channels lowFreq highFreq grants
        threshold entType st = st) ∧
    (∀ (ext : ExternalModel) (fuel : ℕ) (point : ℚ × ℚ) (ch : ℚ × ℚ)
      (rest : List (ℚ × ℚ)) (lowFreq highFreq : ℚ) (grants : List Grant)
      (threshold : ℚ) (entType : ProtectedEntityType) (st : Store ℚ × Store ℚ),
      findOverlappingGrants (ext.findInside grants point entType)
        (if entType = ProtectedEntityType.FSS_BLOCKING then (lowFreq, highFreq)
          else ch).1
        (if entType = ProtectedEntityType.FSS_BLOCKING then (lowFreq, highFreq)
          else ch).2 = [] →
      iapPointConstraint ext fuel point (ch :: rest) lowFreq highFreq grants
        threshold entType st =
        iapPointConstraint ext fuel point rest lowFreq highFreq grants
          threshold entType st) ∧
    (∀ q n : ℚ, calculateApIapRef q n ([] : Store ℚ) ([] : Store ℚ) = []) := by
  refine ⟨?_, ?_, ?_⟩
  · intro ext fuel point channels lowFreq highFreq grants threshold entType st
      h
    simp only [iapPointConstraint, h]
    norm_num
  · intro ext fuel point ch rest lowFreq highFreq grants threshold entType st h
    simp only [iapPointConstraint]
    split
    · rw [List.foldl_cons]
      have hstep : channelStep ext fuel point lowFreq highFreq
          (ext.findInside grants point entType) threshold entType st ch =
          st := by
        simp only [channelStep]
        rw [if_pos h]
      rw [hstep]
    · rfl
  · intro q n
    rfl

/-- An external model whose neighborhood filter returns no grants. -/
def extNone : ExternalModel :=
  { findInside := fun _ _ _ => []
    interfLinear := fun _ _ _ => 0
    dbToLin := id
    linToDb := id }

/-- An external model whose neighborhood filter keeps every grant. -/
def extAll : ExternalModel :=
  { findInside := fun gs _ _ => gs
    interfLinear := fun _ _ _ => 0
    dbToLin := id
    linToDb := id }

/-- Witness for claim C10: a point with an empty neighborhood leaves the reset
stores empty, and a channel (5, 6) Hz that no grant (frequency range 0-1 Hz)
overlaps is skipped. -/
theorem claim_C10_witness :
    (iapPointConstraint extNone 1 (0, 0) [(3550000000, 3555000000)] 0 0
      [⟨10, 0, 1, true⟩] 0 ProtectedEntityType.GWPZ_AREA ([], []) =
      ([], [])) ∧
    (iapPointConstraint extAll 1 (0, 0) [(5, 6)] 0 0 [⟨10, 0, 1, true⟩] 0
      ProtectedEntityType.GWPZ_AREA ([], []) =
      iapPointConstraint extAll 1 (0, 0) [] 0 0 [⟨10, 0, 1, true⟩] 0
        ProtectedEntityType.GWPZ_AREA ([], [])) ∧
    calculateApIapRef (1 : ℚ) 1 ([] : Store ℚ) ([] : Store ℚ) = [] := by
  refine ⟨?_, ?_, claim_C10.2.2 1 1⟩
  · exact claim_C10.1 extNone 1 (0, 0) [(3550000000, 3555000000)] 0 0
      [⟨10, 0, 1, true⟩] 0 ProtectedEntityType.GWPZ_AREA ([], []) rfl
  · refine claim_C10.2.1 extAll 1 (0, 0) (5, 6) [] 0 0 [⟨10, 0, 1, true⟩] 0
      ProtectedEntityType.GWPZ_AREA ([], []) ?_
    decide

/-! ## Claim C7: the conservation property of the convergence loop -/

/-- Interference model for the claim C7 run: grant 0 contributes a constant
4 mW; grant 1 contributes 100 mW at its initial EIRP of 10 and 5 mW below it.
All contributions are nonnegative. -/
def interfEx : ℕ → ℚ → ℚ :=
  fun i e => if i = 0 then 4 else if 10 ≤ e then 100 else 5

/-- The final state of the convergence loop on two managed grants with initial
quota 10 mW and initial EIRPs 10: the loop needs two sweeps, and because
`grant_initialize_flag` is never set to `True` (iap.py has no such assignment),
the already-satisfied grant 0 is processed again in the second sweep. -/
def c7Final : IapState := runLoop interfEx [true, true] 2 3 (initState 10 [10, 10])

/-- Claim C7 (evaluation at the failing input): with positive initial quota
(10) and nonnegative contributions, the terminated loop ends with
`interference_quota = -3` (negative, refuting `quota_remaining ≥ 0`) and
`aggr_interference = 13`, while the sum of the satisfied grants' final linear
contributions is `interfEx 0 10 + interfEx 1 9 = 9` (grant 0 double-counted),
refuting `global total = quota_initial - quota_remaining = sum of final
contributions`. -/
theorem claim_C7_eval :
    (0 : ℚ) < 10 ∧
    (∀ (i : ℕ) (e : ℚ), 0 ≤ interfEx i e) ∧
    c7Final.numUnsat ≤ 0 ∧
    c7Final.quota = -3 ∧
    ¬ 0 ≤ c7Final.quota ∧
    c7Final.aggr = 13 ∧
    10 - c7Final.quota = c7Final.aggr ∧
    c7Final.eirp = [10, 9] ∧
    interfEx 0 10 + interfEx 1 9 = 9 ∧
    c7Final.aggr ≠ interfEx 0 10 + interfEx 1 9 := by
  have hrun : c7Final.numUnsat = -1 ∧ c7Final.quota = -3 ∧
      c7Final.aggr = 13 ∧ c7Final.eirp = [10, 9] := by
    norm_num [c7Final, runLoop, sweepList, probe, initState, interfEx,
      List.range_succ, List.getD_cons_zero, List.getD_cons_succ]
  obtain ⟨h1, h2, h3, h4⟩ := hrun
  refine ⟨by norm_num, ?_, by rw [h1]; norm_num, h2, by rw [h2]; norm_num,
    h3, by rw [h2, h3]; norm_num, h4, by norm_num [interfEx],
    by rw [h3]; norm_num [interfEx]⟩
  intro i e
  unfold interfEx
  split_ifs <;> norm_num

/-! ## Claim C8: termination of the convergence loop -/

theorem probe_flags (f : ℕ → ℚ → ℚ) (m : List Bool) (i : ℕ) (s : IapState) :
    (probe f m i s).flags = s.flags := by
  simp only [probe]
  split_ifs <;> rfl

theorem probe_eirp_length (f : ℕ → ℚ → ℚ) (m : List Bool) (i : ℕ)
    (s : IapState) : (probe f m i s).eirp.length = s.eirp.length := by
  simp only [probe]
  split_ifs <;> simp

theorem probe_numUnsat_le (f : ℕ → ℚ → ℚ) (m : List Bool) (i : ℕ)
    (s : IapState) : (probe f m i s).numUnsat ≤ s.numUnsat := by
  simp only [probe]
  split_ifs <;> simp

theorem probe_eirp_getD_le (f : ℕ → ℚ → ℚ) (m : List Bool) (i : ℕ)
    (s : IapState) (j : ℕ) :
    (probe f m i s).eirp.getD j 0 ≤ s.eirp.getD j 0 := by
  simp only [probe]
  split_ifs <;> try exact le_refl _
  all_goals {
    show (s.eirp.set i (s.eirp.getD i 0 - 1)).getD j 0 ≤ s.eirp.getD j 0
    by_cases hij : i = j
    · subst hij
      by_cases hlen : i < s.eirp.length
      · rw [List.getD_eq_getElem?_getD, List.getElem?_set_self hlen,
          Option.getD_some]
        linarith
      · rw [List.set_eq_of_length_le (by omega)]
    · rw [List.getD_eq_getElem?_getD, List.getElem?_set_ne hij,
        ← List.getD_eq_getElem?_getD] }

theorem probe_pass (f : ℕ → ℚ → ℚ) (m : List Bool) (i : ℕ) (s : IapState)
    (hflag : s.flags.getD i false = false)
    (hlt : f i (s.eirp.getD i 0) < s.fairShare) :
    (probe f m i s).numUnsat = s.numUnsat - 1 := by
  simp only [probe, if_pos hflag, if_pos hlt]

theorem probe_fail (f : ℕ → ℚ → ℚ) (m : List Bool) (i : ℕ) (s : IapState)
    (hflag : s.flags.getD i false = false)
    (hge : ¬ f i (s.eirp.getD i 0) < s.fairShare) :
    probe f m i s = { s with eirp := s.eirp.set i (s.eirp.getD i 0 - 1) } := by
  simp only [probe, if_pos hflag, if_neg hge]

/-- The loop invariant for the termination argument: the flag list is the
all-False list built at iap.py 161 (and never changed), the EIRP list keeps its
length, and while unsatisfied grants remain the quota is positive, the fair
share is the quota split over the unsatisfied count, and the fair share never
drops below its initial value `fs0`. -/
def LoopInv (fs0 : ℚ) (n : ℕ) (s : IapState) : Prop :=
  s.flags = List.replicate n false ∧
  s.eirp.length = n ∧
  (1 ≤ s.numUnsat →
    0 < s.quota ∧ s.fairShare = s.quota / (s.numUnsat : ℚ) ∧
      fs0 ≤ s.fairShare)

theorem probe_inv (f : ℕ → ℚ → ℚ) (m : List Bool) (i : ℕ) {fs0 : ℚ} {n : ℕ}
    {s : IapState} (hinv : LoopInv fs0 n s) :
    LoopInv fs0 n (probe f m i s) := by
  obtain ⟨hfl, hlen, hfs⟩ := hinv
  refine ⟨by rw [probe_flags, hfl], by rw [probe_eirp_length, hlen], ?_⟩
  by_cases h1 : s.flags.getD i false = false
  · by_cases h2 : f i (s.eirp.getD i 0) < s.fairShare
    · simp only [probe, if_pos h1, if_pos h2]
      intro hnum
      have hN2 : 2 ≤ s.numUnsat := by omega
      obtain ⟨hq, hfseq, hfs0le⟩ := hfs (by omega)
      set inter := f i (s.eirp.getD i 0) with hinter
      have hNpos : (0 : ℚ) < ((s.numUnsat : ℤ) : ℚ) := by
        exact_mod_cast (by omega : (0 : ℤ) < s.numUnsat)
      have hintN : inter * ((s.numUnsat : ℤ) : ℚ) < s.quota := by
        rw [hfseq] at h2
        exact (lt_div_iff₀ hNpos).mp h2
      have hqpos : 0 < s.quota - inter := by
        have hdivle : s.quota / ((s.numUnsat : ℤ) : ℚ) ≤ s.quota := by
          apply div_le_self hq.le
          have : (1 : ℤ) ≤ s.numUnsat := by omega
          exact_mod_cast this
        rw [hfseq] at h2
        linarith
      have hne0 : ¬ s.numUnsat - 1 = 0 := by omega
      rw [if_neg hne0]
      have hN1pos : (0 : ℚ) < ((s.numUnsat - 1 : ℤ) : ℚ) := by
        have : (0 : ℤ) < s.numUnsat - 1 := by omega
        exact_mod_cast this
      refine ⟨hqpos, rfl, ?_⟩
      have hstep : s.quota / ((s.numUnsat : ℤ) : ℚ) ≤
          (s.quota - inter) / ((s.numUnsat - 1 : ℤ) : ℚ) := by
        rw [div_le_div_iff₀ hNpos hN1pos]
        have hcast : ((s.numUnsat - 1 : ℤ) : ℚ) = ((s.numUnsat : ℤ) : ℚ) - 1 := by
          push_cast
          ring
        rw [hcast]
        nlinarith [hintN]
      rw [hfseq] at hfs0le
      linarith
    · rw [probe_fail f m i s h1 h2]
      exact hfs
  · simp only [probe, if_neg h1]
    exact hfs

theorem sweepList_flags (f : ℕ → ℚ → ℚ) (m : List Bool) :
    ∀ (l : List ℕ) (s : IapState), (sweepList f m l s).flags = s.flags := by
  intro l
  induction l with
  | nil => intro s; rfl
  | cons i rest ih =>
    intro s
    rw [sweepList, ih, probe_flags]

theorem sweepList_numUnsat_le (f : ℕ → ℚ → ℚ) (m : List Bool) :
    ∀ (l : List ℕ) (s : IapState),
    (sweepList f m l s).numUnsat ≤ s.numUnsat := by
  intro l
  induction l with
  | nil => intro s; exact le_refl _
  | cons i rest ih =>
    intro s
    exact le_trans (ih (probe f m i s)) (probe_numUnsat_le f m i s)

theorem sweepList_eirp_getD_le (f : ℕ → ℚ → ℚ) (m : List Bool) :
    ∀ (l : List ℕ) (s : IapState) (j : ℕ),
    (sweepList f m l s).eirp.getD j 0 ≤ s.eirp.getD j 0 := by
  intro l
  induction l with
  | nil => intro s j; exact le_refl _
  | cons i rest ih =>
    intro s j
    exact le_trans (ih (probe f m i s) j) (probe_eirp_getD_le f m i s j)

theorem sweepList_inv (f : ℕ → ℚ → ℚ) (m : List Bool) {fs0 : ℚ} {n : ℕ} :
    ∀ (l : List ℕ) {s : IapState}, LoopInv fs0 n s →
    LoopInv fs0 n (sweepList f m l s) := by
  intro l
  induction l with
  | nil => intro s h; exact h
  | cons i rest ih =>
    intro s h
    exact ih (probe_inv f m i h)

theorem sweep_pass (f : ℕ → ℚ → ℚ) (m : List Bool) {fs0 : ℚ} {k : ℕ}
    {s : IapState} (hinv : LoopInv fs0 (k + 1) s) (hnum : 1 ≤ s.numUnsat)
    (hlow : f 0 (s.eirp.getD 0 0) < fs0) :
    (sweepList f m (List.range (k + 1)) s).numUnsat < s.numUnsat := by
  obtain ⟨hfl, _, hfs⟩ := hinv
  obtain ⟨_, _, hfs0le⟩ := hfs hnum
  have hflag : s.flags.getD 0 false = false := by
    rw [hfl]
    rfl
  have hpass := probe_pass f m 0 s hflag (lt_of_lt_of_le hlow hfs0le)
  rw [List.range_succ_eq_map, sweepList]
  calc (sweepList f m ((List.range k).map Nat.succ) (probe f m 0 s)).numUnsat
      ≤ (probe f m 0 s).numUnsat := sweepList_numUnsat_le f m _ _
    _ = s.numUnsat - 1 := hpass
    _ < s.numUnsat := by omega

theorem sweepList_no_pass (f : ℕ → ℚ → ℚ) (m : List Bool) {n : ℕ} :
    ∀ (l : List ℕ) (s : IapState), l.Nodup → (∀ i ∈ l, i < n) →
    s.flags = List.replicate n false → s.eirp.length = n →
    (sweepList f m l s).numUnsat = s.numUnsat →
    (∀ j ∈ l, (sweepList f m l s).eirp.getD j 0 = s.eirp.getD j 0 - 1) ∧
    (∀ j, j ∉ l → (sweepList f m l s).eirp.getD j 0 = s.eirp.getD j 0) := by
  intro l
  induction l with
  | nil =>
    intro s _ _ _ _ _
    exact ⟨fun j hj => absurd hj (List.not_mem_nil j), fun j _ => rfl⟩
  | cons i rest ih =>
    intro s hnd hltn hfl hlen hsame
    rw [sweepList] at hsame ⊢
    have hmono1 := sweepList_numUnsat_le f m rest (probe f m i s)
    have hmono2 := probe_numUnsat_le f m i s
    have heq1 : (probe f m i s).numUnsat = s.numUnsat := by omega
    have heq2 : (sweepList f m rest (probe f m i s)).numUnsat =
        (probe f m i s).numUnsat := by omega
    have hin : i < n := hltn i (List.mem_cons_self _ _)
    have hflag : s.flags.getD i false = false := by
      rw [hfl, List.getD_eq_getElem?_getD, List.getElem?_replicate,
        if_pos hin]
      rfl
    have hge : ¬ f i (s.eirp.getD i 0) < s.fairShare := by
      intro hlt
      have := probe_pass f m i s hflag hlt
      omega
    have hfail := probe_fail f m i s hflag hge
    have hfl1 : (probe f m i s).flags = List.replicate n false := by
      rw [probe_flags, hfl]
    have hlen1 : (probe f m i s).eirp.length = n := by
      rw [probe_eirp_length, hlen]
    have hnotrest : i ∉ rest := (List.nodup_cons.mp hnd).1
    obtain ⟨ihmem, ihnot⟩ := ih (probe f m i s) (List.nodup_cons.mp hnd).2
      (fun j hj => hltn j (List.mem_cons_of_mem _ hj)) hfl1 hlen1 heq2
    have hset_self : (probe f m i s).eirp.getD i 0 = s.eirp.getD i 0 - 1 := by
      rw [hfail]
      show (s.eirp.set i (s.eirp.getD i 0 - 1)).getD i 0 = s.eirp.getD i 0 - 1
      rw [List.getD_eq_getElem?_getD, List.getElem?_set_self (by omega),
        Option.getD_some]
    have hset_ne : ∀ j, j ≠ i →
        (probe f m i s).eirp.getD j 0 = s.eirp.getD j 0 := by
      intro j hj
      rw [hfail]
      show (s.eirp.set i (s.eirp.getD i 0 - 1)).getD j 0 = s.eirp.getD j 0
      rw [List.getD_eq_getElem?_getD, List.getElem?_set_ne (fun h => hj h.symm),
        ← List.getD_eq_getElem?_getD]
    constructor
    · intro j hj
      rcases List.mem_cons.mp hj with rfl | hj2
      · rw [ihnot j hnotrest, hset_self]
      · rw [ihmem j hj2, hset_ne j (fun h => hnotrest (h ▸ hj2))]
    · intro j hj
      have hj1 : j ≠ i := fun h => hj (h ▸ List.mem_cons_self _ _)
      have hj2 : j ∉ rest := fun h => hj (List.mem_cons_of_mem _ h)
      rw [ihnot j hj2, hset_ne j hj1]

/-- Termination measure for the convergence loop: the unsatisfied count plus,
for each grant, how many 1 dB steps its EIRP still is above the cutoff `c i`
below which its interference drops under the initial fair share. -/
def loopMeasure (c : ℕ → ℚ) (n : ℕ) (s : IapState) : ℕ :=
  s.numUnsat.toNat +
    ∑ i ∈ Finset.range n, (Int.ceil (s.eirp.getD i 0 - c i)).toNat

theorem measure_decrease_pass (f : ℕ → ℚ → ℚ) (m : List Bool) (c : ℕ → ℚ)
    (n : ℕ) (s : IapState) (hnum : 1 ≤ s.numUnsat)
    (hlt : (sweepList f m (List.range n) s).numUnsat < s.numUnsat) :
    loopMeasure c n (sweepList f m (List.range n) s) < loopMeasure c n s := by
  unfold loopMeasure
  have h1 : (sweepList f m (List.range n) s).numUnsat.toNat <
      s.numUnsat.toNat := by omega
  have h2 : ∑ i ∈ Finset.range n,
      (Int.ceil ((sweepList f m (List.range n) s).eirp.getD i 0 - c i)).toNat ≤
      ∑ i ∈ Finset.range n, (Int.ceil (s.eirp.getD i 0 - c i)).toNat := by
    apply Finset.sum_le_sum
    intro i _
    apply Int.toNat_le_toNat
    apply Int.ceil_le_ceil
    have := sweepList_eirp_getD_le f m (List.range n) s i
    linarith
  omega

theorem measure_decrease_nopass (f : ℕ → ℚ → ℚ) (m : List Bool) (c : ℕ → ℚ)
    {fs0 : ℚ} {k : ℕ} {s : IapState} (hinv : LoopInv fs0 (k + 1) s)
    (hnum : 1 ≤ s.numUnsat)
    (hc : ∀ i < k + 1, ∀ e ≤ c i, f i e < fs0)
    (heq : (sweepList f m (List.range (k + 1)) s).numUnsat = s.numUnsat) :
    loopMeasure c (k + 1) (sweepList f m (List.range (k + 1)) s) <
      loopMeasure c (k + 1) s := by
  have hfl := hinv.1
  have hlen := hinv.2.1
  obtain ⟨hmem, _⟩ := sweepList_no_pass f m (List.range (k + 1)) s
    (List.nodup_range (k + 1)) (fun i h => List.mem_range.mp h) hfl hlen heq
  have hwit : ∃ i0, i0 < k + 1 ∧ c i0 < s.eirp.getD i0 0 := by
    by_contra hall
    push_neg at hall
    have hlow : f 0 (s.eirp.getD 0 0) < fs0 :=
      hc 0 (Nat.succ_pos k) _ (hall 0 (Nat.succ_pos k))
    have := sweep_pass f m hinv hnum hlow
    omega
  obtain ⟨i0, hi0n, hi0⟩ := hwit
  unfold loopMeasure
  rw [heq]
  have hterm : ∀ i ∈ Finset.range (k + 1),
      (Int.ceil ((sweepList f m (List.range (k + 1)) s).eirp.getD i 0 -
        c i)).toNat ≤ (Int.ceil (s.eirp.getD i 0 - c i)).toNat := by
    intro i hi
    rw [hmem i (List.mem_range.mpr (Finset.mem_range.mp hi))]
    have harr : s.eirp.getD i 0 - 1 - c i = (s.eirp.getD i 0 - c i) - 1 := by
      ring
    rw [harr, Int.ceil_sub_one]
    omega
  have hstrict : ∃ i ∈ Finset.range (k + 1),
      (Int.ceil ((sweepList f m (List.range (k + 1)) s).eirp.getD i 0 -
        c i)).toNat < (Int.ceil (s.eirp.getD i 0 - c i)).toNat := by
    refine ⟨i0, Finset.mem_range.mpr hi0n, ?_⟩
    rw [hmem i0 (List.mem_range.mpr hi0n)]
    have harr : s.eirp.getD i0 0 - 1 - c i0 = (s.eirp.getD i0 0 - c i0) - 1 := by
      ring
    rw [harr, Int.ceil_sub_one]
    have hpos : 0 < Int.ceil (s.eirp.getD i0 0 - c i0) :=
      Int.ceil_pos.mpr (by linarith)
    omega
  have := Finset.sum_lt_sum hterm hstrict
  omega

theorem runLoop_term (f : ℕ → ℚ → ℚ) (m : List Bool) {k : ℕ} {fs0 : ℚ}
    (c : ℕ → ℚ) (hc : ∀ i < k + 1, ∀ e ≤ c i, f i e < fs0) :
    ∀ (fuelBound : ℕ) (s : IapState), LoopInv fs0 (k + 1) s →
    loopMeasure c (k + 1) s ≤ fuelBound →
    (runLoop f m (k + 1) (fuelBound + 1) s).numUnsat ≤ 0 := by
  intro fuelBound
  induction fuelBound with
  | zero =>
    intro s hinv hm
    rw [runLoop]
    by_cases h0 : 0 < s.numUnsat
    · exfalso
      unfold loopMeasure at hm
      omega
    · rw [if_neg h0]
      omega
  | succ b ih =>
    intro s hinv hm
    rw [runLoop]
    by_cases h0 : 0 < s.numUnsat
    · rw [if_pos h0]
      have hnum : 1 ≤ s.numUnsat := h0
      have hinv' := sweepList_inv f m (List.range (k + 1)) hinv
      have hdec : loopMeasure c (k + 1)
          (sweepList f m (List.range (k + 1)) s) < loopMeasure c (k + 1) s := by
        rcases lt_or_eq_of_le
          (sweepList_numUnsat_le f m (List.range (k + 1)) s) with hlt | heq
        · exact measure_decrease_pass f m c (k + 1) s hnum hlt
        · exact measure_decrease_nopass f m c hinv hnum hc heq
      exact ih _ hinv' (by omega)
    · rw [if_neg h0]
      omega

/-- Claim C8: under the precondition that each grant's interference is
monotone in its EIRP and eventually falls below any positive bound as the EIRP
is driven down in 1 dB steps, the convergence loop of `iapPointConstraint`
terminates (some finite fuel drives `num_unsatisfied_grants` to zero or below)
for every input with at least one overlapping grant and positive quota. -/
theorem claim_C8 (interf : ℕ → ℚ → ℚ) (managed : List Bool) (quota0 : ℚ)
    (e0 : List ℚ) (hne : e0 ≠ []) (hq : 0 < quota0)
    (hmono : ∀ (i : ℕ) (e1 e2 : ℚ), e1 ≤ e2 → interf i e1 ≤ interf i e2)
    (hvanish : ∀ i < e0.length, ∀ ε : ℚ, 0 < ε → ∃ e : ℚ, interf i e < ε) :
    ∃ fuel : ℕ,
      (runLoop interf managed e0.length fuel
        (initState quota0 e0)).numUnsat ≤ 0 := by
  obtain ⟨k, hk⟩ : ∃ k, e0.length = k + 1 := by
    cases he : e0.length with
    | zero => exact absurd (List.length_eq_zero.mp he) hne
    | succ k => exact ⟨k, rfl⟩
  set fs0 : ℚ := quota0 / (e0.length : ℚ) with hfs0def
  have hlenpos : (0 : ℚ) < (e0.length : ℚ) := by
    rw [hk]
    push_cast
    positivity
  have hfs0 : 0 < fs0 := div_pos hq hlenpos
  classical
  set c : ℕ → ℚ := fun i =>
    if h : i < e0.length then Classical.choose (hvanish i h fs0 hfs0) else 0
    with hcdef
  have hc : ∀ i < e0.length, ∀ e ≤ c i, interf i e < fs0 := by
    intro i hi e he
    have hci : c i = Classical.choose (hvanish i hi fs0 hfs0) := by
      rw [hcdef]
      exact dif_pos hi
    calc interf i e ≤ interf i (c i) := hmono i e (c i) he
      _ < fs0 := by
        rw [hci]
        exact Classical.choose_spec (hvanish i hi fs0 hfs0)
  have hinv : LoopInv fs0 e0.length (initState quota0 e0) := by
    refine ⟨rfl, rfl, fun _ => ⟨hq, ?_, le_refl _⟩⟩
    show quota0 / (e0.length : ℚ) = quota0 / (((e0.length : ℤ) : ℚ))
    push_cast
    rfl
  rw [hk] at hc hinv ⊢
  exact ⟨loopMeasure c (k + 1) (initState quota0 e0) + 1,
    runLoop_term interf managed c hc _ (initState quota0 e0) hinv (le_refl _)⟩

/-- Witness for claim C8: a single grant with identically-zero interference,
quota 1 mW; the loop terminates. -/
theorem claim_C8_witness :
    ([(5 : ℚ)] ≠ ([] : List ℚ)) ∧ ((0 : ℚ) < 1) ∧
    ∃ fuel : ℕ,
      (runLoop (fun _ _ => (0 : ℚ)) [true] ([(5 : ℚ)]).length fuel
        (initState 1 [5])).numUnsat ≤ 0 :=
  ⟨by simp, by norm_num,
    claim_C8 (fun _ _ => 0) [true] 1 [5] (by simp) (by norm_num)
      (fun _ _ _ _ => le_refl 0) (fun _ _ ε hε => ⟨0, hε⟩)⟩
